import Mathlib

set_option linter.unusedVariables false

/-!
Verification of the ChampSim scheduler core and FDIP prefetcher.

Shallow embedding of:
- `src/src/champsim.cc` (phase driver `do_phase`, run driver `champsim::main`)
- `src/prefetcher/fdip/fdip.cc` (FDIP prefetcher member functions)
- `src/inc/trace_instruction.h` (trace record layouts)

C++ deques are modelled as Lean lists with the front at the head:
`push_back` appends, `pop_front` drops the head.  Machine integers are
modelled as `Nat`, with an explicit `% 2 ^ 64` where a 64-bit addition
could wrap.
-/

namespace ChampSim

/-! ### FDIP prefetcher (src/prefetcher/fdip/fdip.cc)

The pending queue `prefetch_queue` and the recent-issue filter
`recent_prefetches` are declared at translation-unit file scope
(fdip.cc lines 11-12).  They are a single mutable state, not fields of
`CACHE`; every cache instance whose prefetcher hooks are these member
functions reads and writes the same two deques.  The per-cache
quantities (`LOG2_BLOCK_SIZE`, `MSHR_SIZE`, `get_mshr_occupancy()`,
`hit_test`, `prefetch_line`) are passed in as parameters. -/

def MAX_PFETCHQ_ENTRIES : Nat := 128

def MAX_RECENT_PFETCH : Nat := 4

/-- One `prefetch_queue` entry: `(block address, branch target, size)`
(fdip.cc line 11, `std::tuple<uint64_t, uint64_t, uint8_t>`). -/
structure PfEntry where
  block_addr : Nat
  branch_target : Nat
  size : Nat
deriving DecidableEq

/-- The file-scope mutable state of fdip.cc (lines 11-12). -/
structure FdipState where
  prefetch_queue : List PfEntry
  recent_prefetches : List Nat
deriving DecidableEq

/-- Both deques start empty (static initialization). -/
def fdipInit : FdipState := ⟨[], []⟩

/-- Per-cache compile-time constants referenced by the fdip member
functions: `LOG2_BLOCK_SIZE` and `MSHR_SIZE` (= `get_mshr_size()`). -/
structure CacheCfg where
  log2_block_size : Nat
  mshr_size : Nat
deriving DecidableEq

/-- `CACHE::prefetcher_branch_operate` (fdip.cc lines 16-34): align the
branch target to its block; ignore block 0; if the block is not already
pending, and not in the recent filter, enqueue it; then (still inside the
not-already-pending branch) drop the oldest entry if the queue exceeds
`MAX_PFETCHQ_ENTRIES`. -/
def prefetcher_branch_operate (cfg : CacheCfg) (st : FdipState)
    (ip branch_type branch_target size : Nat) : FdipState :=
  let block_addr := (branch_target >>> cfg.log2_block_size) <<< cfg.log2_block_size
  if block_addr = 0 then st
  else if st.prefetch_queue.any (fun x => x.block_addr = block_addr) then st
  else
    let q :=
      if st.recent_prefetches.contains block_addr then st.prefetch_queue
      else st.prefetch_queue ++ [⟨block_addr, branch_target, size⟩]
    let q := if MAX_PFETCHQ_ENTRIES < q.length then q.tail else q
    { st with prefetch_queue := q }

/-- `CACHE::prefetcher_cache_operate` (fdip.cc lines 36-47): on a demand
miss with MSHR occupancy below `MSHR_SIZE >> 1`, issue a next-line
prefetch unconditionally (the recent filter is not consulted) and record
it in the recent filter, evicting its oldest entry past capacity.
Returns the new state and the list of addresses passed to
`prefetch_line`. -/
def prefetcher_cache_operate (cfg : CacheCfg) (st : FdipState)
    (addr : Nat) (cache_hit : Bool) (mshr_occupancy : Nat) :
    FdipState × List Nat :=
  if cache_hit = false ∧ mshr_occupancy < cfg.mshr_size >>> 1 then
    let pf_addr := (addr + (1 <<< cfg.log2_block_size)) % 2 ^ 64
    let r := st.recent_prefetches ++ [pf_addr]
    let r := if MAX_RECENT_PFETCH < r.length then r.tail else r
    ({ st with recent_prefetches := r }, [pf_addr])
  else (st, [])

/-- The `while` loop of `CACHE::prefetcher_cycle_operate` (fdip.cc lines
56-77), recursing on the pending queue.  If the MSHR gate is closed the
loop body is skipped and the function returns at once.  If the head
entry's branch target hits in the cache (`hit_test`), it is popped and
the loop continues; otherwise the head is issued unless it is in the
recent filter, the filter is trimmed, the head is popped, and the
function returns.  Result: (pending queue, recent filter, issued
addresses). -/
def cycleLoop (cfg : CacheCfg) (mshr_occupancy : Nat) (hitTest : Nat → Bool) :
    List PfEntry → List Nat → List PfEntry × List Nat × List Nat
  | [], recent => ([], recent, [])
  | e :: rest, recent =>
    if mshr_occupancy < cfg.mshr_size >>> 1 then
      if hitTest e.branch_target then
        cycleLoop cfg mshr_occupancy hitTest rest recent
      else
        let pr :=
          if recent.contains e.block_addr then (recent, ([] : List Nat))
          else (recent ++ [e.block_addr], [e.block_addr])
        let r := if MAX_RECENT_PFETCH < pr.1.length then pr.1.tail else pr.1
        (rest, r, pr.2)
    else (e :: rest, recent, [])

/-- `CACHE::prefetcher_cycle_operate` (fdip.cc lines 54-78) on the
file-scope state.  Returns the new state and the issued addresses. -/
def prefetcher_cycle_operate (cfg : CacheCfg) (st : FdipState)
    (mshr_occupancy : Nat) (hitTest : Nat → Bool) : FdipState × List Nat :=
  let t := cycleLoop cfg mshr_occupancy hitTest st.prefetch_queue st.recent_prefetches
  (⟨t.1, t.2.1⟩, t.2.2)

/-- A driver event on the FDIP state, invoked through some cache whose
constants are `cfg`. -/
inductive FdipOp where
  | branch (cfg : CacheCfg) (ip branch_type branch_target size : Nat)
  | demand (cfg : CacheCfg) (addr : Nat) (cache_hit : Bool) (mshr_occupancy : Nat)
  | pump (cfg : CacheCfg) (mshr_occupancy : Nat) (hitTest : Nat → Bool)

def applyFdipOp (st : FdipState) : FdipOp → FdipState
  | .branch cfg i bt t s => prefetcher_branch_operate cfg st i bt t s
  | .demand cfg a h occ => (prefetcher_cache_operate cfg st a h occ).1
  | .pump cfg occ ht => (prefetcher_cycle_operate cfg st occ ht).1

/-- The FDIP state after a sequence of events, from the initial state. -/
def runFdip (ops : List FdipOp) : FdipState := ops.foldl applyFdipOp fdipInit

/-- The pending queue as observed through cache `c`.  In the source the
queue is the file-scope global of fdip.cc line 11, so the observation
does not depend on which cache observes it. -/
def observed_prefetch_queue (c : Nat) (g : FdipState) : List PfEntry :=
  g.prefetch_queue

/-- The recent-issue filter as observed through cache `c` (file-scope
global of fdip.cc line 12). -/
def observed_recent_prefetches (c : Nat) (g : FdipState) : List Nat :=
  g.recent_prefetches

/-- `prefetcher_branch_operate` invoked through cache `c` of a machine
whose cache constants are given by `caches`: the cache index selects the
per-cache constants only; the mutated deques are the file-scope
globals. -/
def branch_operate_via (caches : Nat → CacheCfg) (c : Nat) (g : FdipState)
    (ip branch_type branch_target size : Nat) : FdipState :=
  prefetcher_branch_operate (caches c) g ip branch_type branch_target size

/-! ### Phase driver (src/src/champsim.cc, `do_phase`) -/

/-- `constexpr int DEADLOCK_CYCLE{500}` (champsim.cc line 32). -/
def DEADLOCK_CYCLE : Nat := 500

/-- The `stalled_cycle` update of one loop iteration (champsim.cc lines
70-74): a zero-progress cycle increments the counter, any nonzero
progress resets it to zero. -/
def stallStep (stalled progress : Nat) : Nat :=
  if progress = 0 then stalled + 1 else 0

/-- Index (0-based cycle number) at which `do_phase` aborts, given the
summed operable progress of each successive cycle, starting from stall
counter `stalled` (champsim.cc lines 59, 70-79); `none` if the run never
reaches the deadlock threshold. -/
def abortPoint (stalled : Nat) : List Nat → Option Nat
  | [] => none
  | p :: rest =>
    let s := stallStep stalled p
    if DEADLOCK_CYCLE ≤ s then some 0
    else (abortPoint s rest).map (· + 1)

/-- Outcome of the deadlock check of one cycle. -/
inductive CycleOutcome (α : Type) where
  | next (stalled : Nat)
  | aborted (dumped : List α)
deriving DecidableEq

/-- One deadlock check (champsim.cc lines 65-79): sum every operable's
progress; update the stall counter; on reaching `DEADLOCK_CYCLE`, call
`print_deadlock` on every operable (the `dumped` list, in order) and
`abort()`. -/
def deadlockCheck {α : Type} (operables : List α) (progressOf : α → Nat)
    (stalled : Nat) : CycleOutcome α :=
  let progress := (operables.map progressOf).sum
  let s := stallStep stalled progress
  if DEADLOCK_CYCLE ≤ s then .aborted operables else .next s

/-- Snapshot trigger of the trace-feed loop (champsim.cc lines 98-117):
for each fetched instruction of a non-warmup phase the counter is
post-incremented and its old value compared strictly against
`snapshot_rate`; on trigger a snapshot is appended and the counter is
reset to 0.  `snapshotCount S F c` is the number of snapshots captured
across `F` successful fetches starting from counter value `c`. -/
def snapshotCount (S : Nat) : Nat → Nat → Nat
  | 0, _ => 0
  | F + 1, c => if S < c then 1 + snapshotCount S F 0 else snapshotCount S F (c + 1)

/-- Inputs consumed by one `do_phase` loop iteration for the completion
logic (champsim.cc lines 61-142): whether the active trace reader is at
end-of-file after the fetch loop (line 121), and each core's
`sim_instr()` (line 128). -/
structure CycleInput where
  eof : Bool
  simInstr : List Nat
deriving DecidableEq

/-- The `next_phase_complete` computation of one iteration (champsim.cc
lines 62, 120-129): copy the current flags; on trace EOF fill every flag
with `true`; then or-in `sim_instr() >= length` per core. -/
def completeStep (length : Nat) (inp : CycleInput) (complete : List Bool) :
    List Bool :=
  let next := if inp.eof then complete.map (fun _ => true) else complete
  next.zipWith (fun b si => b || decide (length ≤ si)) inp.simInstr

/-- The `while` guard (champsim.cc line 61): the phase is over exactly
when every completion flag is `true`. -/
def phaseDone (complete : List Bool) : Bool := complete.all id

/-- End-of-phase broadcasts of one iteration (champsim.cc lines
131-139): the cores whose completion flag changed this cycle; for each
listed core, `op.end_phase(cpu)` is called on every operable. -/
def cycleNotifs (complete next : List Bool) : List Nat :=
  (List.range complete.length).filter (fun c => decide (next.get? c ≠ complete.get? c))

/-- The `do_phase` loop (champsim.cc lines 61-142) restricted to the
completion flags, consuming one `CycleInput` per iteration.  Returns the
final flags and the concatenated end-of-phase broadcast core ids. -/
def doPhaseLoop (length : Nat) : List CycleInput → List Bool → List Bool × List Nat
  | [], complete => (complete, [])
  | inp :: rest, complete =>
    if phaseDone complete then (complete, [])
    else
      let next := completeStep length inp complete
      let t := doPhaseLoop length rest next
      (t.1, cycleNotifs complete next ++ t.2)

/-! ### Run driver (src/src/champsim.cc, `champsim::main`) -/

/-- The fields of `phase_info` that `champsim::main` inspects
(phase name, warmup flag, target length). -/
structure phase_info where
  name : String
  is_warmup : Bool
  length : Nat
deriving DecidableEq

/-- A `snapshot` (cpu stats payload, cache stats payloads); the stats
contents are opaque to the claims checked here and are modelled as
`Nat` placeholders. -/
structure snapshot_rec where
  cpu : Nat
  cache : List Nat
deriving DecidableEq

/-- The fields of `phase_stats` that `champsim::main` touches. -/
structure phase_stats where
  snapshots : List snapshot_rec
  sim_cpu_stats : List Nat
  sim_cache_stats : List Nat
deriving DecidableEq

/-- `champsim::main` (champsim.cc lines 170-186): run every phase,
keeping the stats of non-warmup phases only, then unconditionally append
one final synthetic snapshot to `results[0]`.  `do_phase` is abstracted
as the function argument `doPhase`.  The unguarded `results[0]` access
(line 183) is out of bounds exactly when `results` is empty; the model
returns `none` in that case.  (`results[0].sim_cpu_stats[0]` is likewise
unchecked in the source; it is modelled with `headI` since every run has
one cpu — enforced by the assert on line 85.) -/
def champsim_main (doPhase : phase_info → phase_stats)
    (phases : List phase_info) : Option (List phase_stats) :=
  let results := phases.foldl
    (fun acc ph =>
      let stats := doPhase ph
      if ph.is_warmup then acc else acc ++ [stats]) []
  match results with
  | [] => none
  | r :: rest =>
    some ({ r with
            snapshots := r.snapshots ++ [⟨r.sim_cpu_stats.headI, r.sim_cache_stats⟩] }
          :: rest)

/-! ### Trace record layouts (src/inc/trace_instruction.h) -/

/-- `enum program_state` (trace_instruction.h lines 23-29). -/
inductive program_state where
  | ERR
  | STATE_IRRELEVANT
  | STATE_INTERPRET
  | STATE_JIT
  | STATE_TRACE
deriving DecidableEq

/-- `typedef enum { ... } TraceState` (trace_instruction.h lines 89-98). -/
inductive TraceState where
  | LJ_TRACE_IDLE
  | LJ_TRACE_ACTIVE
  | LJ_TRACE_RECORD
  | LJ_TRACE_RECORD_1ST
  | LJ_TRACE_START
  | LJ_TRACE_END
  | LJ_TRACE_ASM
  | LJ_TRACE_ERR
deriving DecidableEq

def NUM_INSTR_DESTINATIONS : Nat := 2

def NUM_INSTR_SOURCES : Nat := 4

/-- Byte size of a C++ enum with `int` underlying type (both
`program_state`, which holds -1, and `TraceState` fit in `int`). -/
def enum_bytes : Nat := 4

/-- Field layout (name, byte size) of `struct input_instr`
(trace_instruction.h lines 57-70): 8-byte `unsigned long long`s, 1-byte
`unsigned char`s, array sizes from the constants above. -/
def input_instr_layout : List (String × Nat) :=
  [("ip", 8),
   ("is_branch", 1),
   ("branch_taken", 1),
   ("destination_registers", NUM_INSTR_DESTINATIONS * 1),
   ("source_registers", NUM_INSTR_SOURCES * 1),
   ("destination_memory", NUM_INSTR_DESTINATIONS * 8),
   ("source_memory", NUM_INSTR_SOURCES * 8)]

/-- Field layout of `struct luajit_instr` (trace_instruction.h lines
100-116): the base `input_instr` fields followed by `program_state
state` and `TraceState trace_state`. -/
def luajit_instr_layout : List (String × Nat) :=
  input_instr_layout ++ [("state", enum_bytes), ("trace_state", enum_bytes)]

/-! ### Helper lemmas: FDIP -/

lemma length_trim_le {α : Type} (l : List α) (n : Nat) (h : l.length ≤ n + 1) :
    (if n < l.length then l.tail else l).length ≤ n := by
  by_cases hc : n < l.length
  · rw [if_pos hc, List.length_tail]
    omega
  · rw [if_neg hc]
    omega

lemma cycleLoop_nil (cfg : CacheCfg) (occ : Nat) (ht : Nat → Bool) (r : List Nat) :
    cycleLoop cfg occ ht [] r = ([], r, []) := rfl

lemma cycleLoop_cons (cfg : CacheCfg) (occ : Nat) (ht : Nat → Bool)
    (e : PfEntry) (rest : List PfEntry) (r : List Nat) :
    cycleLoop cfg occ ht (e :: rest) r =
      if occ < cfg.mshr_size >>> 1 then
        if ht e.branch_target then cycleLoop cfg occ ht rest r
        else
          let pr :=
            if r.contains e.block_addr then (r, ([] : List Nat))
            else (r ++ [e.block_addr], [e.block_addr])
          (rest, if MAX_RECENT_PFETCH < pr.1.length then pr.1.tail else pr.1, pr.2)
      else (e :: rest, r, []) := rfl

lemma cycleLoop_queue_length_le (cfg : CacheCfg) (occ : Nat) (ht : Nat → Bool) :
    ∀ (q : List PfEntry) (r : List Nat), (cycleLoop cfg occ ht q r).1.length ≤ q.length
  | [], r => by rw [cycleLoop_nil]
  | e :: rest, r => by
    rw [cycleLoop_cons]
    by_cases hg : occ < cfg.mshr_size >>> 1
    · rw [if_pos hg]
      by_cases hh : ht e.branch_target
      · rw [if_pos hh]
        exact le_trans (cycleLoop_queue_length_le cfg occ ht rest r) (by simp)
      · rw [if_neg hh]
        simp
    · rw [if_neg hg]

lemma cycleLoop_queue_length_lt (cfg : CacheCfg) (occ : Nat) (ht : Nat → Bool)
    (e : PfEntry) (rest : List PfEntry) (r : List Nat)
    (hg : occ < cfg.mshr_size >>> 1) :
    (cycleLoop cfg occ ht (e :: rest) r).1.length < (e :: rest).length := by
  rw [cycleLoop_cons, if_pos hg]
  by_cases hh : ht e.branch_target
  · rw [if_pos hh]
    exact lt_of_le_of_lt (cycleLoop_queue_length_le cfg occ ht rest r) (by simp)
  · rw [if_neg hh]
    simp

lemma cycleLoop_recent_length_le (cfg : CacheCfg) (occ : Nat) (ht : Nat → Bool) :
    ∀ (q : List PfEntry) (r : List Nat), r.length ≤ MAX_RECENT_PFETCH →
      (cycleLoop cfg occ ht q r).2.1.length ≤ MAX_RECENT_PFETCH
  | [], r => by
    rw [cycleLoop_nil]
    exact fun h => h
  | e :: rest, r => by
    intro hr
    rw [cycleLoop_cons]
    by_cases hg : occ < cfg.mshr_size >>> 1
    · rw [if_pos hg]
      by_cases hh : ht e.branch_target
      · rw [if_pos hh]
        exact cycleLoop_recent_length_le cfg occ ht rest r hr
      · rw [if_neg hh]
        by_cases hc : r.contains e.block_addr
        · simp only [hc, if_pos]
          exact length_trim_le r MAX_RECENT_PFETCH (le_trans hr (by omega))
        · simp only [hc]
          simp only [Bool.false_eq_true, if_neg, if_false]
          refine length_trim_le _ MAX_RECENT_PFETCH ?_
          rw [List.length_append]
          simpa using hr
    · rw [if_neg hg]
      exact hr

lemma cycleLoop_issued_length_le_one (cfg : CacheCfg) (occ : Nat) (ht : Nat → Bool) :
    ∀ (q : List PfEntry) (r : List Nat), (cycleLoop cfg occ ht q r).2.2.length ≤ 1
  | [], r => by rw [cycleLoop_nil]; simp
  | e :: rest, r => by
    rw [cycleLoop_cons]
    by_cases hg : occ < cfg.mshr_size >>> 1
    · rw [if_pos hg]
      by_cases hh : ht e.branch_target
      · rw [if_pos hh]
        exact cycleLoop_issued_length_le_one cfg occ ht rest r
      · rw [if_neg hh]
        by_cases hc : e.block_addr ∈ r
        · simp [hc]
        · simp [hc]
    · rw [if_neg hg]
      simp

lemma cycleLoop_issued_notin_recent (cfg : CacheCfg) (occ : Nat) (ht : Nat → Bool) :
    ∀ (q : List PfEntry) (r : List Nat) (b : Nat), b ∈ r →
      b ∉ (cycleLoop cfg occ ht q r).2.2
  | [], r, b => by
    rw [cycleLoop_nil]
    intro _ h
    simp at h
  | e :: rest, r, b => by
    intro hb
    rw [cycleLoop_cons]
    by_cases hg : occ < cfg.mshr_size >>> 1
    · rw [if_pos hg]
      by_cases hh : ht e.branch_target
      · rw [if_pos hh]
        exact cycleLoop_issued_notin_recent cfg occ ht rest r b hb
      · rw [if_neg hh]
        by_cases hc : e.block_addr ∈ r
        · simp [hc]
        · simp [hc]
          intro hbe
          exact hc (hbe ▸ hb)
    · rw [if_neg hg]
      simp

lemma cycleLoop_gate_closed (cfg : CacheCfg) (occ : Nat) (ht : Nat → Bool)
    (q : List PfEntry) (r : List Nat) (hg : ¬ occ < cfg.mshr_size >>> 1) :
    cycleLoop cfg occ ht q r = (q, r, []) := by
  cases q with
  | nil => rw [cycleLoop_nil]
  | cons e rest => rw [cycleLoop_cons, if_neg hg]

/-- The FDIP capacity invariant of both file-scope deques. -/
def fdipInv (st : FdipState) : Prop :=
  st.prefetch_queue.length ≤ MAX_PFETCHQ_ENTRIES ∧
  st.recent_prefetches.length ≤ MAX_RECENT_PFETCH

lemma branch_operate_inv (cfg : CacheCfg) (st : FdipState) (i bt t s : Nat)
    (h : fdipInv st) : fdipInv (prefetcher_branch_operate cfg st i bt t s) := by
  unfold prefetcher_branch_operate
  by_cases h0 : (t >>> cfg.log2_block_size) <<< cfg.log2_block_size = 0
  · rw [if_pos h0]
    exact h
  · rw [if_neg h0]
    by_cases hq : st.prefetch_queue.any
        (fun x => x.block_addr = (t >>> cfg.log2_block_size) <<< cfg.log2_block_size)
    · simp only [hq, if_pos]
      exact h
    · simp only [hq]
      simp only [Bool.false_eq_true, if_false]
      constructor
      · refine length_trim_le _ MAX_PFETCHQ_ENTRIES ?_
        by_cases hr : st.recent_prefetches.contains
            ((t >>> cfg.log2_block_size) <<< cfg.log2_block_size)
        · simp only [hr, if_pos]
          exact le_trans h.1 (by omega)
        · simp only [hr]
          simp only [Bool.false_eq_true, if_false]
          rw [List.length_append]
          have := h.1
          simpa using this
      · exact h.2

lemma cache_operate_inv (cfg : CacheCfg) (st : FdipState) (a : Nat) (hit : Bool)
    (occ : Nat) (h : fdipInv st) :
    fdipInv (prefetcher_cache_operate cfg st a hit occ).1 := by
  unfold prefetcher_cache_operate
  by_cases hg : hit = false ∧ occ < cfg.mshr_size >>> 1
  · rw [if_pos hg]
    refine ⟨h.1, ?_⟩
    refine length_trim_le _ MAX_RECENT_PFETCH ?_
    rw [List.length_append]
    have := h.2
    simpa using this
  · rw [if_neg hg]
    exact h

lemma cycle_operate_inv (cfg : CacheCfg) (st : FdipState) (occ : Nat)
    (ht : Nat → Bool) (h : fdipInv st) :
    fdipInv (prefetcher_cycle_operate cfg st occ ht).1 := by
  unfold prefetcher_cycle_operate
  exact ⟨le_trans (cycleLoop_queue_length_le cfg occ ht _ _) h.1,
         cycleLoop_recent_length_le cfg occ ht _ _ h.2⟩

lemma applyFdipOp_inv (st : FdipState) (op : FdipOp) (h : fdipInv st) :
    fdipInv (applyFdipOp st op) := by
  cases op with
  | branch cfg i bt t s => exact branch_operate_inv cfg st i bt t s h
  | demand cfg a hit occ => exact cache_operate_inv cfg st a hit occ h
  | pump cfg occ ht => exact cycle_operate_inv cfg st occ ht h

lemma foldl_fdipInv : ∀ (ops : List FdipOp) (st : FdipState), fdipInv st →
    fdipInv (ops.foldl applyFdipOp st)
  | [], st, h => h
  | op :: ops, st, h => foldl_fdipInv ops (applyFdipOp st op) (applyFdipOp_inv st op h)

/-! ### Claims C3-C6 (FDIP) -/

/-- C3 (counterexample): the claim that distinct caches own separate FDIP
state fails.  The deques are file-scope globals (fdip.cc lines 11-12), so
a branch-resolution event through cache 0 changes the pending queue that
cache 1 observes: starting from the empty state, cache 0 resolves a
branch to target 64, and cache 1's observed queue is no longer empty. -/
theorem fdip_state_not_per_cache_cex :
    observed_prefetch_queue 1
        (branch_operate_via (fun _ => ⟨6, 8⟩) 0 fdipInit 0 0 64 4) ≠
      observed_prefetch_queue 1 fdipInit := by decide

/-- C3 (amended): the FDIP pending queue and recent-issue filter are a
single file-scope state shared by all cache instances: every cache
observes the identical queue and filter, both before and after an event
invoked through any cache; a mutation through one cache is therefore
observed identically by every cache. -/
theorem fdip_state_shared_across_caches (c c' : Nat) (g : FdipState)
    (caches : Nat → CacheCfg) (i bt t s : Nat) :
    observed_prefetch_queue c g = observed_prefetch_queue c' g ∧
    observed_recent_prefetches c g = observed_recent_prefetches c' g ∧
    observed_prefetch_queue c (branch_operate_via caches c' g i bt t s) =
      observed_prefetch_queue c' (branch_operate_via caches c' g i bt t s) :=
  ⟨rfl, rfl, rfl⟩

/-- C4 (counterexample): with the MSHR gate open (occupancy 0, half
capacity 4) and a pending queue of two entries whose branch targets both
hit in the cache, one pump invocation dequeues both entries, not exactly
one: the resulting queue length is 0, not 1. -/
theorem fdip_pump_single_dequeue_cex :
    (0 : Nat) < (CacheCfg.mk 6 8).mshr_size >>> 1 ∧
    ¬ ((prefetcher_cycle_operate ⟨6, 8⟩ ⟨[⟨64, 100, 4⟩, ⟨128, 200, 4⟩], []⟩ 0
        (fun _ => true)).1.prefetch_queue.length = 1) := by decide

/-- C4 (amended): on every pump invocation, if outstanding-miss occupancy
is at or above half of the miss-tracking capacity, zero prefetches are
issued and the state (in particular the pending queue) is left entirely
unchanged; at most one hardware prefetch is issued per invocation in all
cases; and if occupancy is below half and the pending queue is non-empty,
at least one pending entry is dequeued (head entries whose target hits in
the cache are discarded in a loop, so more than one entry can be dequeued
in a single cycle). -/
theorem fdip_pump_admission_control (cfg : CacheCfg) (st : FdipState)
    (occ : Nat) (ht : Nat → Bool) :
    (¬ occ < cfg.mshr_size >>> 1 →
      prefetcher_cycle_operate cfg st occ ht = (st, [])) ∧
    (prefetcher_cycle_operate cfg st occ ht).2.length ≤ 1 ∧
    (occ < cfg.mshr_size >>> 1 → st.prefetch_queue ≠ [] →
      (prefetcher_cycle_operate cfg st occ ht).1.prefetch_queue.length <
        st.prefetch_queue.length) := by
  refine ⟨?_, ?_, ?_⟩
  · intro hg
    unfold prefetcher_cycle_operate
    rw [cycleLoop_gate_closed cfg occ ht _ _ hg]
  · exact cycleLoop_issued_length_le_one cfg occ ht _ _
  · intro hg hne
    unfold prefetcher_cycle_operate
    cases hq : st.prefetch_queue with
    | nil => exact absurd hq hne
    | cons e rest =>
      simpa [hq] using
        cycleLoop_queue_length_lt cfg occ ht e rest st.recent_prefetches hg

/-- C4 (witness): the amended theorem at concrete inputs — a closed gate
(occupancy 4 of capacity 8) leaves the state untouched, and an open gate
with a one-entry queue dequeues it. -/
theorem fdip_pump_admission_control_witness :
    prefetcher_cycle_operate ⟨6, 8⟩ ⟨[⟨64, 100, 4⟩], [64]⟩ 4 (fun _ => false) =
      (⟨[⟨64, 100, 4⟩], [64]⟩, []) ∧
    (prefetcher_cycle_operate ⟨6, 8⟩ ⟨[⟨64, 100, 4⟩], []⟩ 0
        (fun _ => false)).1.prefetch_queue.length < 1 := by
  refine ⟨(fdip_pump_admission_control ⟨6, 8⟩ ⟨[⟨64, 100, 4⟩], [64]⟩ 4
      (fun _ => false)).1 (by decide), ?_⟩
  have h := (fdip_pump_admission_control ⟨6, 8⟩ ⟨[⟨64, 100, 4⟩], []⟩ 0
      (fun _ => false)).2.2 (by decide) (by decide)
  simpa using h

/-- C5 (counterexample): the dedup claim fails when both triggers go
through the demand-miss path, which never consults the recent-issue
filter: two demand misses on address 0 in immediate succession each issue
a hardware prefetch for block 64, the second while 64 is still in the
filter — two issuances, not at most one. -/
theorem fdip_demand_dedup_cex :
    (prefetcher_cache_operate ⟨6, 8⟩ fdipInit 0 false 0).2 = [64] ∧
    64 ∈ (prefetcher_cache_operate ⟨6, 8⟩ fdipInit 0 false 0).1.recent_prefetches ∧
    (prefetcher_cache_operate ⟨6, 8⟩
        (prefetcher_cache_operate ⟨6, 8⟩ fdipInit 0 false 0).1
        0 false 0).2 = [64] := by decide

/-- C5 (amended): deduplication against the recent-issue filter applies
only to issuance through the per-cycle pump: an address currently in the
filter is never issued by a pump invocation (so a second trigger through
the pump, before eviction, causes no second issuance); the demand-miss
path (`prefetcher_cache_operate`) issues unconditionally without
consulting the filter. -/
theorem fdip_pump_respects_filter (cfg : CacheCfg) (st : FdipState)
    (occ : Nat) (ht : Nat → Bool) (b : Nat) (hb : b ∈ st.recent_prefetches) :
    b ∉ (prefetcher_cycle_operate cfg st occ ht).2 :=
  cycleLoop_issued_notin_recent cfg occ ht st.prefetch_queue
    st.recent_prefetches b hb

/-- C5 (witness): the amended theorem at a concrete input — with 64 in
the filter and at the head of the pending queue, the pump does not issue
64 again. -/
theorem fdip_pump_respects_filter_witness :
    64 ∉ (prefetcher_cycle_operate ⟨6, 8⟩ ⟨[⟨64, 100, 4⟩], [64]⟩ 0
      (fun _ => false)).2 :=
  fdip_pump_respects_filter ⟨6, 8⟩ ⟨[⟨64, 100, 4⟩], [64]⟩ 0 (fun _ => false)
    64 (by decide)

/-- C6: for every sequence of branch-resolution events, demand-miss
events and per-cycle pump invocations starting from the empty state, the
pending prefetch queue holds at most `MAX_PFETCHQ_ENTRIES` (128) entries
and the recent-issue filter at most `MAX_RECENT_PFETCH` (4); since this
holds for every sequence it holds at every point between operations. -/
theorem fdip_capacity_bounds (ops : List FdipOp) :
    (runFdip ops).prefetch_queue.length ≤ MAX_PFETCHQ_ENTRIES ∧
    (runFdip ops).recent_prefetches.length ≤ MAX_RECENT_PFETCH :=
  foldl_fdipInv ops fdipInit ⟨Nat.zero_le _, Nat.zero_le _⟩

/-! ### Helper lemmas: snapshot cadence and deadlock counter -/

lemma snapshotCount_formula (S : Nat) : ∀ (F c : Nat), c ≤ S + 1 →
    snapshotCount S F c = (F + c) / (S + 2)
  | 0, c, hc => by
    simp only [snapshotCount]
    rw [Nat.zero_add, Nat.div_eq_of_lt (by omega)]
  | F + 1, c, hc => by
    simp only [snapshotCount]
    by_cases h : S < c
    · rw [if_pos h]
      have hc' : c = S + 1 := by omega
      rw [snapshotCount_formula S F 0 (by omega), Nat.add_zero]
      subst hc'
      have he : F + 1 + (S + 1) = F + (S + 2) := by omega
      rw [he, Nat.add_div_right _ (by omega)]
      omega
    · rw [if_neg h]
      rw [snapshotCount_formula S F (c + 1) (by omega)]
      have he : F + (c + 1) = F + 1 + c := by omega
      rw [he]

lemma abortPoint_nil (s : Nat) : abortPoint s [] = none := rfl

lemma abortPoint_cons (s p : Nat) (rest : List Nat) :
    abortPoint s (p :: rest) =
      if DEADLOCK_CYCLE ≤ stallStep s p then some 0
      else (abortPoint (stallStep s p) rest).map (· + 1) := rfl

lemma stallStep_le (s p : Nat) : stallStep s p ≤ s + 1 := by
  unfold stallStep
  split <;> omega

lemma abortPoint_lower_bound : ∀ (l : List Nat) (s i : Nat),
    abortPoint s l = some i → DEADLOCK_CYCLE ≤ s + i + 1
  | [], s, i => by simp [abortPoint_nil]
  | p :: rest, s, i => by
    rw [abortPoint_cons]
    intro h
    by_cases hc : DEADLOCK_CYCLE ≤ stallStep s p
    · rw [if_pos hc] at h
      injection h with h0
      have := stallStep_le s p
      omega
    · rw [if_neg hc] at h
      cases hr : abortPoint (stallStep s p) rest with
      | none => rw [hr] at h; simp at h
      | some k =>
        rw [hr] at h
        simp only [Option.map_some'] at h
        injection h with h0
        have hk := abortPoint_lower_bound rest (stallStep s p) k hr
        have := stallStep_le s p
        omega

lemma abortPoint_window_zero : ∀ (l : List Nat) (s i : Nat),
    abortPoint s l = some i →
    ∀ j, j ≤ i → i < j + DEADLOCK_CYCLE → l.get? j = some 0
  | [], s, i => by simp [abortPoint_nil]
  | p :: rest, s, i => by
    rw [abortPoint_cons]
    intro h j hji hwin
    by_cases hc : DEADLOCK_CYCLE ≤ stallStep s p
    · rw [if_pos hc] at h
      injection h with h0
      have hj : j = 0 := by omega
      subst hj
      have hp : p = 0 := by
        by_contra hp
        unfold stallStep at hc
        rw [if_neg hp] at hc
        simp only [DEADLOCK_CYCLE] at hc
        omega
      subst hp
      rfl
    · rw [if_neg hc] at h
      cases hr : abortPoint (stallStep s p) rest with
      | none => rw [hr] at h; simp at h
      | some k =>
        rw [hr] at h
        simp only [Option.map_some'] at h
        injection h with h0
        cases j with
        | zero =>
          have hp : p = 0 := by
            by_contra hp
            have hz : stallStep s p = 0 := by
              unfold stallStep
              rw [if_neg hp]
            rw [hz] at hr
            have hk := abortPoint_lower_bound rest 0 k hr
            simp only [DEADLOCK_CYCLE] at hk hwin
            omega
          subst hp
          rfl
        | succ j' =>
          have := abortPoint_window_zero rest (stallStep s p) k hr j'
            (by omega) (by omega)
          simpa using this

lemma abortPoint_replicate : ∀ (n s : Nat), s ≤ DEADLOCK_CYCLE - 1 →
    abortPoint s (List.replicate n 0) =
      if DEADLOCK_CYCLE ≤ s + n then some (DEADLOCK_CYCLE - 1 - s) else none
  | 0, s, hs => by
    rw [List.replicate_zero, abortPoint_nil,
        if_neg (by simp only [DEADLOCK_CYCLE] at *; omega)]
  | n + 1, s, hs => by
    rw [List.replicate_succ, abortPoint_cons]
    have hstep : stallStep s 0 = s + 1 := by unfold stallStep; simp
    rw [hstep]
    by_cases hc : DEADLOCK_CYCLE ≤ s + 1
    · rw [if_pos hc, if_pos (by omega)]
      have hs' : s = DEADLOCK_CYCLE - 1 := by
        simp only [DEADLOCK_CYCLE] at *
        omega
      rw [hs', Nat.sub_self]
    · rw [if_neg hc,
          abortPoint_replicate n (s + 1) (by simp only [DEADLOCK_CYCLE] at *; omega)]
      by_cases h2 : DEADLOCK_CYCLE ≤ s + (n + 1)
      · rw [if_pos (by omega), if_pos h2]
        simp only [Option.map_some']
        have : DEADLOCK_CYCLE - 1 - (s + 1) + 1 = DEADLOCK_CYCLE - 1 - s := by
          simp only [DEADLOCK_CYCLE] at *
          omega
        rw [this]
      · rw [if_neg (by omega), if_neg h2]
        rfl

/-! ### Claims C1-C2 (phase driver) -/

/-- C1 (counterexample): with snapshot interval S = 2 > 0 and F = 4 = 2×S
fetched instructions in a non-warmup phase, the code captures 1 snapshot,
not floor(F / S) = 2: the counter is post-incremented and compared
strictly, so a snapshot fires only every S + 2 fetches. -/
theorem snapshot_cadence_cex :
    (0 : Nat) < 2 ∧ (4 : Nat) = 2 * 2 ∧ ¬ (snapshotCount 2 4 0 = 4 / 2) := by
  decide

/-- C1 (amended): in a non-warmup phase that successfully fetches F
instructions with snapshot interval S, `do_phase` captures exactly
floor(F / (S + 2)) snapshots (the post-incremented counter must strictly
exceed S before a snapshot fires and is then reset to 0, giving a period
of S + 2 fetches, not S). -/
theorem snapshot_cadence (S F : Nat) : snapshotCount S F 0 = F / (S + 2) := by
  have h := snapshotCount_formula S F 0 (by omega)
  simpa using h

/-- C2: `do_phase` never aborts before 500 consecutive zero-progress
cycles have elapsed — at any abort cycle i (counting from 0, stall
counter starting at 0) the 500 cycles j with i - 499 ≤ j ≤ i all had
zero summed progress and i ≥ 499; a run of exactly 499 all-zero cycles
does not abort while a run of 500 aborts at cycle index 499 (the 500th
cycle); when the threshold is reached every operable is dumped via
`print_deadlock` before `abort()`; and any cycle with nonzero total
progress resets the consecutive-stall counter to zero. -/
theorem deadlock_abort_at_500 (α : Type) :
    (∀ (progs : List Nat) (i : Nat), abortPoint 0 progs = some i →
        DEADLOCK_CYCLE - 1 ≤ i ∧
        ∀ j, j ≤ i → i < j + DEADLOCK_CYCLE → progs.get? j = some 0) ∧
    (∀ n, n < DEADLOCK_CYCLE → abortPoint 0 (List.replicate n 0) = none) ∧
    abortPoint 0 (List.replicate DEADLOCK_CYCLE 0) =
      some (DEADLOCK_CYCLE - 1) ∧
    (∀ (ops : List α) (f : α → Nat) (s : Nat) (d : List α),
        deadlockCheck ops f s = .aborted d → d = ops) ∧
    (∀ s p, p ≠ 0 → stallStep s p = 0) := by
  refine ⟨?_, ?_, ?_, ?_, ?_⟩
  · intro progs i h
    have h1 := abortPoint_lower_bound progs 0 i h
    refine ⟨by simp only [DEADLOCK_CYCLE] at *; omega, ?_⟩
    exact abortPoint_window_zero progs 0 i h
  · intro n hn
    rw [abortPoint_replicate n 0 (by omega)]
    rw [if_neg (by omega)]
  · rw [abortPoint_replicate DEADLOCK_CYCLE 0 (by omega)]
    rw [if_pos (by omega), Nat.sub_zero]
  · intro ops f s d h
    unfold deadlockCheck at h
    by_cases hc : DEADLOCK_CYCLE ≤ stallStep s ((ops.map f).sum)
    · rw [if_pos hc] at h
      injection h with h0
      exact h0.symm
    · rw [if_neg hc] at h
      cases h
  · intro s p hp
    unfold stallStep
    rw [if_neg hp]

/-- C2 (witness): the theorem applied at concrete inputs — 499 all-zero
cycles do not abort; 500 all-zero cycles abort at cycle 499, at which
point e.g. cycle 250 indeed had zero progress; a two-operable
environment that reaches the threshold dumps exactly its operable list;
nonzero progress 3 resets a stall count of 7. -/
theorem deadlock_abort_at_500_witness :
    abortPoint 0 (List.replicate 499 0) = none ∧
    abortPoint 0 (List.replicate 500 0) = some 499 ∧
    (List.replicate 500 (0 : Nat)).get? 250 = some 0 ∧
    ([10, 20] : List Nat) = [10, 20] ∧
    stallStep 7 3 = 0 := by
  have h := deadlock_abort_at_500 Nat
  refine ⟨h.2.1 499 (by decide), h.2.2.1, ?_, ?_, h.2.2.2.2 7 3 (by decide)⟩
  · exact (h.1 (List.replicate 500 0) 499 h.2.2.1).2 250 (by decide) (by decide)
  · exact h.2.2.2.1 [10, 20] (fun _ => 0) 499 [10, 20] (by decide)

/-! ### Helper lemmas: completion flags -/

lemma doPhaseLoop_nil (L : Nat) (complete : List Bool) :
    doPhaseLoop L [] complete = (complete, []) := rfl

lemma doPhaseLoop_cons (L : Nat) (inp : CycleInput) (rest : List CycleInput)
    (complete : List Bool) :
    doPhaseLoop L (inp :: rest) complete =
      if phaseDone complete then (complete, [])
      else
        ((doPhaseLoop L rest (completeStep L inp complete)).1,
          cycleNotifs complete (completeStep L inp complete) ++
            (doPhaseLoop L rest (completeStep L inp complete)).2) := rfl

lemma zipWith_or_get?_true (f : Nat → Bool) :
    ∀ (l : List Bool) (si : List Nat) (c : Nat), si.length = l.length →
      l.get? c = some true →
      (List.zipWith (fun b s => b || f s) l si).get? c = some true
  | [], si, c => by simp
  | b :: l, si, c => by
    intro hlen hget
    cases si with
    | nil => simp at hlen
    | cons s ss =>
      cases c with
      | zero =>
        simp only [List.get?_cons_zero, Option.some.injEq] at hget
        simp [List.zipWith, hget]
      | succ c' =>
        simp only [List.zipWith, List.get?_cons_succ]
        exact zipWith_or_get?_true f l ss c' (by simpa using hlen)
          (by simpa using hget)

lemma zipWith_or_replicate_true (f : Nat → Bool) :
    ∀ (si : List Nat) (n : Nat), si.length = n →
      List.zipWith (fun b s => b || f s) (List.replicate n true) si =
        List.replicate n true
  | [], n, h => by
    subst h
    rfl
  | s :: ss, n, h => by
    cases n with
    | zero => simp at h
    | succ m =>
      rw [List.replicate_succ]
      simp only [List.zipWith, Bool.true_or]
      rw [zipWith_or_replicate_true f ss m (by simpa using h)]

lemma map_const_true (l : List Bool) :
    l.map (fun _ => true) = List.replicate l.length true := by
  induction l with
  | nil => rfl
  | cons b bs ih => simp [List.replicate_succ, ih]

lemma completeStep_eof (L : Nat) (inp : CycleInput) (complete : List Bool)
    (hlen : inp.simInstr.length = complete.length) (heof : inp.eof = true) :
    completeStep L inp complete = List.replicate complete.length true := by
  unfold completeStep
  rw [if_pos heof, map_const_true]
  exact zipWith_or_replicate_true _ inp.simInstr complete.length hlen

lemma phaseDone_replicate_true (n : Nat) :
    phaseDone (List.replicate n true) = true := by
  unfold phaseDone
  induction n with
  | zero => rfl
  | succ m ih => rw [List.replicate_succ]; simpa using ih

lemma completeStep_length (L : Nat) (inp : CycleInput) (complete : List Bool)
    (h : inp.simInstr.length = complete.length) :
    (completeStep L inp complete).length = complete.length := by
  unfold completeStep
  by_cases he : inp.eof = true
  · rw [if_pos he]
    simp [h]
  · rw [if_neg he]
    simp [h]

lemma completeStep_mono (L : Nat) (inp : CycleInput) (complete : List Bool)
    (c : Nat) (hlen : inp.simInstr.length = complete.length)
    (h : complete.get? c = some true) :
    (completeStep L inp complete).get? c = some true := by
  unfold completeStep
  by_cases he : inp.eof = true
  · rw [if_pos he]
    refine zipWith_or_get?_true _ _ _ _ (by simpa using hlen) ?_
    rw [List.get?_map, h]
    rfl
  · rw [if_neg he]
    exact zipWith_or_get?_true _ complete inp.simInstr c hlen h

lemma completeStep_flip (L : Nat) (inp : CycleInput) (complete : List Bool)
    (c : Nat) (hlen : inp.simInstr.length = complete.length)
    (hc : c < complete.length)
    (hne : (completeStep L inp complete).get? c ≠ complete.get? c) :
    (completeStep L inp complete).get? c = some true := by
  have hlt : c < (completeStep L inp complete).length := by
    rw [completeStep_length L inp complete hlen]
    exact hc
  have h1 := List.get?_eq_get hlt
  have h2 := List.get?_eq_get hc
  cases hb : complete.get ⟨c, hc⟩ with
  | true =>
    exact completeStep_mono L inp complete c hlen (by rw [h2, hb])
  | false =>
    cases hb' : (completeStep L inp complete).get ⟨c, hlt⟩ with
    | true => rw [h1, hb']
    | false =>
      exfalso
      apply hne
      rw [h1, h2, hb, hb']

lemma cycleNotifs_nodup (complete next : List Bool) :
    (cycleNotifs complete next).Nodup :=
  (List.nodup_range _).filter _

lemma mem_cycleNotifs (complete next : List Bool) (c : Nat) :
    c ∈ cycleNotifs complete next ↔
      c < complete.length ∧ next.get? c ≠ complete.get? c := by
  unfold cycleNotifs
  rw [List.mem_filter, List.mem_range]
  simp

lemma doPhaseLoop_count_zero (L : Nat) :
    ∀ (inputs : List CycleInput) (complete : List Bool) (c : Nat),
      (∀ inp ∈ inputs, inp.simInstr.length = complete.length) →
      complete.get? c = some true →
      ((doPhaseLoop L inputs complete).2.count c) = 0
  | [], complete, c, _, _ => by simp [doPhaseLoop_nil]
  | inp :: rest, complete, c, hlen, htrue => by
    rw [doPhaseLoop_cons]
    by_cases hd : phaseDone complete
    · rw [if_pos hd]
      simp
    · rw [if_neg hd]
      simp only []
      rw [List.count_append]
      have hlen1 : inp.simInstr.length = complete.length := hlen inp (by simp)
      have hmono := completeStep_mono L inp complete c hlen1 htrue
      have hnot : c ∉ cycleNotifs complete (completeStep L inp complete) := by
        rw [mem_cycleNotifs]
        intro hmem
        exact hmem.2 (by rw [hmono, htrue])
      rw [List.count_eq_zero.mpr hnot]
      have hrest := doPhaseLoop_count_zero L rest (completeStep L inp complete) c
        (fun i hi => by
          rw [completeStep_length L inp complete hlen1]
          exact hlen i (by simp [hi]))
        hmono
      simpa using hrest

lemma doPhaseLoop_count_le_one (L : Nat) :
    ∀ (inputs : List CycleInput) (complete : List Bool) (c : Nat),
      (∀ inp ∈ inputs, inp.simInstr.length = complete.length) →
      ((doPhaseLoop L inputs complete).2.count c) ≤ 1
  | [], complete, c, _ => by simp [doPhaseLoop_nil]
  | inp :: rest, complete, c, hlen => by
    rw [doPhaseLoop_cons]
    by_cases hd : phaseDone complete
    · rw [if_pos hd]
      simp
    · rw [if_neg hd]
      simp only []
      rw [List.count_append]
      have hlen1 : inp.simInstr.length = complete.length := hlen inp (by simp)
      have hlenrest : ∀ i ∈ rest,
          i.simInstr.length = (completeStep L inp complete).length := fun i hi => by
        rw [completeStep_length L inp complete hlen1]
        exact hlen i (by simp [hi])
      by_cases ht : complete.get? c = some true
      · have h1 : c ∉ cycleNotifs complete (completeStep L inp complete) := by
          rw [mem_cycleNotifs]
          intro hmem
          exact hmem.2
            (by rw [completeStep_mono L inp complete c hlen1 ht, ht])
        have h2 := doPhaseLoop_count_zero L rest (completeStep L inp complete) c
          hlenrest (completeStep_mono L inp complete c hlen1 ht)
        rw [List.count_eq_zero.mpr h1, h2]
        omega
      · by_cases hmem : c ∈ cycleNotifs complete (completeStep L inp complete)
        · have hm := (mem_cycleNotifs complete (completeStep L inp complete) c).mp hmem
          have hflip := completeStep_flip L inp complete c hlen1 hm.1 hm.2
          have h2 := doPhaseLoop_count_zero L rest (completeStep L inp complete) c
            hlenrest hflip
          have h1 : (cycleNotifs complete (completeStep L inp complete)).count c ≤ 1 :=
            List.nodup_iff_count_le_one.mp (cycleNotifs_nodup _ _) c
          omega
        · rw [List.count_eq_zero.mpr hmem]
          have := doPhaseLoop_count_le_one L rest (completeStep L inp complete) c
            hlenrest
          simpa using this

/-! ### Claims C7 and C10 (phase completion) -/

/-- C7: if the active trace reader reaches end-of-file on some cycle of
`do_phase` (champsim.cc lines 120-122), the completion vector after that
cycle is all-true — every core's flag is set — regardless of the cores'
retired-instruction counts (here all strictly below the target length);
the loop guard then fails, so the phase terminates with every flag true
and no further iteration runs. -/
theorem coupled_termination (L : Nat) (inp : CycleInput) (complete : List Bool)
    (rest : List CycleInput)
    (hlen : inp.simInstr.length = complete.length)
    (heof : inp.eof = true)
    (hunder : ∀ si ∈ inp.simInstr, si < L) :
    completeStep L inp complete = List.replicate complete.length true ∧
    phaseDone (completeStep L inp complete) = true ∧
    doPhaseLoop L rest (completeStep L inp complete) =
      (List.replicate complete.length true, []) := by
  have h1 := completeStep_eof L inp complete hlen heof
  have h2 : phaseDone (completeStep L inp complete) = true := by
    rw [h1]
    exact phaseDone_replicate_true complete.length
  refine ⟨h1, h2, ?_⟩
  cases rest with
  | nil => rw [doPhaseLoop_nil, h1]
  | cons i is => rw [doPhaseLoop_cons, if_pos h2, h1]

/-- C7 (witness): a 1-core instance — target length 10, the core having
retired only 3 instructions, the trace at EOF — terminates the phase
with the core's flag true. -/
theorem coupled_termination_witness :
    completeStep 10 ⟨true, [3]⟩ [false] = [true] ∧
    phaseDone (completeStep 10 ⟨true, [3]⟩ [false]) = true := by
  have h := coupled_termination 10 ⟨true, [3]⟩ [false] [] rfl rfl
    (by intro si hsi; simp at hsi; omega)
  exact ⟨h.1, h.2.1⟩

/-- C10: within one `do_phase`, each core's completion flag is monotone —
a flag that is true stays true across every loop iteration
(`completeStep` only fills flags with true on EOF and ors in the
length-reached condition) — and consequently the end-of-phase broadcast
(in which every operable receives `end_phase(cpu)`) is emitted at most
once per core over the whole phase. -/
theorem end_phase_at_most_once (L : Nat) (inputs : List CycleInput)
    (complete : List Bool)
    (hlen : ∀ inp ∈ inputs, inp.simInstr.length = complete.length) :
    (∀ (inp : CycleInput) (c : Nat), inp.simInstr.length = complete.length →
        complete.get? c = some true →
        (completeStep L inp complete).get? c = some true) ∧
    ∀ c, ((doPhaseLoop L inputs complete).2.count c) ≤ 1 :=
  ⟨fun inp c h1 h2 => completeStep_mono L inp complete c h1 h2,
   fun c => doPhaseLoop_count_le_one L inputs complete c hlen⟩

/-- C10 (witness): the theorem at a concrete instance — a core already
complete stays complete after a further cycle, and over a concrete
two-cycle phase every core is broadcast at most once. -/
theorem end_phase_at_most_once_witness :
    (completeStep 10 ⟨false, [12]⟩ [true]).get? 0 = some true ∧
    ((doPhaseLoop 10 [⟨false, [12]⟩, ⟨false, [15]⟩] [true]).2.count 0) ≤ 1 := by
  have h := end_phase_at_most_once 10 [⟨false, [12]⟩, ⟨false, [15]⟩] [true]
    (by
      intro inp hi
      simp only [List.mem_cons, List.mem_singleton] at hi
      rcases hi with hi | hi | hi
      · subst hi; rfl
      · subst hi; rfl
      · cases hi)
  exact ⟨h.1 ⟨false, [12]⟩ 0 rfl rfl, h.2 0⟩

/-! ### Claim C9 (run driver) -/

lemma main_fold_results (doPhase : phase_info → phase_stats) :
    ∀ (phases : List phase_info) (acc : List phase_stats),
      phases.foldl
        (fun acc ph =>
          let stats := doPhase ph
          if ph.is_warmup then acc else acc ++ [stats]) acc =
      acc ++ (phases.filter (fun ph => !ph.is_warmup)).map doPhase
  | [], acc => by simp
  | ph :: rest, acc => by
    simp only [List.foldl_cons]
    by_cases hw : ph.is_warmup
    · rw [main_fold_results doPhase rest _]
      simp [hw]
    · rw [main_fold_results doPhase rest _]
      simp [hw]

/-- C9: the unguarded `results[0]` access at the end of `champsim::main`
(champsim.cc line 183) is within bounds — the model returns `some` — if
and only if the phase list contains at least one phase not marked warmup;
with an all-warmup phase list, `results` is empty and the access is out
of bounds (the model returns `none`). -/
theorem main_requires_measured_phase (doPhase : phase_info → phase_stats)
    (phases : List phase_info) :
    (champsim_main doPhase phases).isSome = true ↔
      ∃ ph ∈ phases, ph.is_warmup = false := by
  unfold champsim_main
  rw [main_fold_results doPhase phases []]
  simp only [List.nil_append]
  cases hf : (phases.filter (fun ph => !ph.is_warmup)).map doPhase with
  | nil =>
    simp only [Option.isSome_none, Bool.false_eq_true, false_iff]
    intro hex
    obtain ⟨ph, hmem, hw⟩ := hex
    have hmf : ph ∈ phases.filter (fun ph => !ph.is_warmup) :=
      List.mem_filter.mpr ⟨hmem, by simp [hw]⟩
    rw [List.map_eq_nil] at hf
    rw [hf] at hmf
    cases hmf
  | cons r rs =>
    simp only [Option.isSome_some, true_iff]
    have hne : phases.filter (fun ph => !ph.is_warmup) ≠ [] := by
      intro h0
      rw [h0] at hf
      cases hf
    obtain ⟨ph, hmem⟩ := List.exists_mem_of_ne_nil _ hne
    have hm := List.mem_filter.mp hmem
    exact ⟨ph, hm.1, by simpa using hm.2⟩

/-- C9 (witness): the theorem at concrete inputs — a run with one
non-warmup phase yields an in-bounds access, one with only a warmup
phase does not. -/
theorem main_requires_measured_phase_witness :
    (champsim_main (fun _ => ⟨[], [0], []⟩)
        [⟨"Simulation", false, 5⟩]).isSome = true ∧
    ¬ (champsim_main (fun _ => ⟨[], [0], []⟩)
        [⟨"Warmup", true, 5⟩]).isSome = true := by
  constructor
  · exact (main_requires_measured_phase (fun _ => ⟨[], [0], []⟩)
      [⟨"Simulation", false, 5⟩]).mpr ⟨⟨"Simulation", false, 5⟩, by simp, rfl⟩
  · intro h
    obtain ⟨ph, hmem, hw⟩ := (main_requires_measured_phase
      (fun _ => ⟨[], [0], []⟩) [⟨"Warmup", true, 5⟩]).mp h
    simp only [List.mem_singleton] at hmem
    subst hmem
    cases hw

/-! ### Claim C8 (trace record layout) -/

/-- C8 (counterexample): `luajit_instr` does not add exactly one field to
the base record — it adds two (`program_state state` and `TraceState
trace_state`, trace_instruction.h lines 114-115). -/
theorem luajit_layout_cex :
    ¬ (luajit_instr_layout.length = input_instr_layout.length + 1) := by
  decide

/-- C8 (amended): the interpreter-state trace record variant consists of
the base `input_instr` layout plus exactly two additional 4-byte enum
tags: an execution-state tag `state` whose values are error (-1),
irrelevant, interpreting, JIT-compiled and tracing (five values, not
four), and a LuaJIT trace-compiler state tag `trace_state` with eight
values (idle, active, record, record-1st, start, end, asm, err). -/
theorem luajit_layout_two_tags :
    luajit_instr_layout =
      input_instr_layout ++ [("state", enum_bytes), ("trace_state", enum_bytes)] ∧
    enum_bytes = 4 ∧
    luajit_instr_layout.length = input_instr_layout.length + 2 ∧
    (∀ s : program_state,
      s = .ERR ∨ s = .STATE_IRRELEVANT ∨ s = .STATE_INTERPRET ∨
      s = .STATE_JIT ∨ s = .STATE_TRACE) ∧
    (∀ t : TraceState,
      t = .LJ_TRACE_IDLE ∨ t = .LJ_TRACE_ACTIVE ∨ t = .LJ_TRACE_RECORD ∨
      t = .LJ_TRACE_RECORD_1ST ∨ t = .LJ_TRACE_START ∨ t = .LJ_TRACE_END ∨
      t = .LJ_TRACE_ASM ∨ t = .LJ_TRACE_ERR) := by
  refine ⟨rfl, rfl, by decide, ?_, ?_⟩
  · intro s
    cases s <;> simp
  · intro t
    cases t <;> simp

end ChampSim
